import Mathlib

/-!
Verification model of the ThreadedTickets/Transcripts storage core.

The development shallowly embeds the three source modules that the claims
concern:

* `src/fileWriter.ts` — the per-key promise-chain scheduler (`queues`),
  the file-handle cache with idle eviction (`fileStates`), `append`, and
  the rewrite-based `edit`/`delete`;
* `src/finish.ts` — `finishTranscript`, the compaction of an active
  `.jsonl` file into a `{metadata, messages}` document.

File contents are modelled as Lean `String`s, JSON values as an inductive
`Json` type, and JavaScript's `JSON.parse` / `JSON.stringify` / `===` by
executable functions below.  The model of `JSON.parse` covers null,
booleans, integer numbers, strings (with the standard escapes), arrays and
objects; non-integer numerals are treated as unparseable, which is the one
deliberate narrowing of the JavaScript builtin (no claim depends on
floating-point numerals).
-/

/-- JSON values as produced by `JSON.parse`.  Numbers are modelled as
integers; object fields are kept in insertion order, with a duplicate key
overwriting the value at the first occurrence, as JavaScript objects do. -/
inductive Json where
  | null : Json
  | bool (b : Bool) : Json
  | num (n : Int) : Json
  | str (s : String) : Json
  | arr (elems : List Json) : Json
  | obj (fields : List (String × Json)) : Json

/-- Whitespace as recognised by `JSON.parse` and by `String.prototype.trim`
on the characters that can occur here. -/
def isWsChar (c : Char) : Bool :=
  c = ' ' || c = '\t' || c = '\n' || c = '\r'

/-- Drop leading JSON whitespace. -/
def skipWs : List Char → List Char
  | [] => []
  | c :: rest => if isWsChar c then skipWs rest else c :: rest

/-- Value of a hexadecimal digit, for `\uXXXX` escapes. -/
def hexVal (c : Char) : Option Nat :=
  if '0' ≤ c ∧ c ≤ '9' then some (c.toNat - '0'.toNat)
  else if 'a' ≤ c ∧ c ≤ 'f' then some (c.toNat - 'a'.toNat + 10)
  else if 'A' ≤ c ∧ c ≤ 'F' then some (c.toNat - 'A'.toNat + 10)
  else none

/-- Body of a JSON string literal (the opening quote already consumed).
`acc` holds the decoded characters in reverse.  Unescaped control
characters are rejected, as `JSON.parse` rejects them. -/
def parseStrAux : Nat → List Char → List Char → Option (String × List Char)
  | 0, _, _ => none
  | _ + 1, [], _ => none
  | fuel + 1, c :: rest, acc =>
    if c = '"' then some (String.mk acc.reverse, rest)
    else if c = '\\' then
      match rest with
      | '"' :: r => parseStrAux fuel r ('"' :: acc)
      | '\\' :: r => parseStrAux fuel r ('\\' :: acc)
      | '/' :: r => parseStrAux fuel r ('/' :: acc)
      | 'n' :: r => parseStrAux fuel r ('\n' :: acc)
      | 't' :: r => parseStrAux fuel r ('\t' :: acc)
      | 'r' :: r => parseStrAux fuel r ('\r' :: acc)
      | 'b' :: r => parseStrAux fuel r (Char.ofNat 8 :: acc)
      | 'f' :: r => parseStrAux fuel r (Char.ofNat 12 :: acc)
      | 'u' :: h1 :: h2 :: h3 :: h4 :: r =>
        match hexVal h1, hexVal h2, hexVal h3, hexVal h4 with
        | some a, some b, some d, some e =>
          parseStrAux fuel r (Char.ofNat (a * 4096 + b * 256 + d * 16 + e) :: acc)
        | _, _, _, _ => none
      | _ => none
    else if c.toNat < 32 then none
    else parseStrAux fuel rest (c :: acc)

/-- Leading decimal digits of the input, with the remainder. -/
def takeDigits : List Char → List Char × List Char
  | [] => ([], [])
  | c :: rest =>
    if c.isDigit then
      let (ds, r) := takeDigits rest
      (c :: ds, r)
    else ([], c :: rest)

/-- Numeric value of a digit list. -/
def digitsToNat : List Char → Nat → Nat
  | [], acc => acc
  | c :: rest, acc => digitsToNat rest (acc * 10 + (c.toNat - '0'.toNat))

/-- An integer JSON numeral: optional minus sign, then digits without a
redundant leading zero.  A numeral continued by `.`, `e` or `E` (a
floating-point literal) is outside the model and fails, making the whole
line unparseable in the model. -/
def parseNum (cs : List Char) : Option (Json × List Char) :=
  let (neg, body) :=
    match cs with
    | '-' :: rest => (true, rest)
    | _ => (false, cs)
  match takeDigits body with
  | ([], _) => none
  | (ds, rest) =>
    if ds.length > 1 ∧ ds.headI = '0' then none
    else
      match rest with
      | '.' :: _ => none
      | 'e' :: _ => none
      | 'E' :: _ => none
      | _ =>
        let n : Int := Int.ofNat (digitsToNat ds 0)
        some (.num (if neg then -n else n), rest)

/-- Record a parsed object member.  JavaScript object semantics: a
duplicate key keeps the position of the first occurrence but takes the
last value. -/
def addField (fields : List (String × Json)) (k : String) (v : Json) :
    List (String × Json) :=
  if fields.any (fun p => p.1 = k) then
    fields.map (fun p => if p.1 = k then (k, v) else p)
  else fields ++ [(k, v)]

mutual

/-- One JSON value, recursive-descent with fuel (each recursive step
consumes at least one input character, so the fuel chosen in `Json.parse`
never runs out on inputs it is applied to). -/
def parseVal : Nat → List Char → Option (Json × List Char)
  | 0, _ => none
  | fuel + 1, cs =>
    match skipWs cs with
    | [] => none
    | 'n' :: 'u' :: 'l' :: 'l' :: rest => some (.null, rest)
    | 't' :: 'r' :: 'u' :: 'e' :: rest => some (.bool true, rest)
    | 'f' :: 'a' :: 'l' :: 's' :: 'e' :: rest => some (.bool false, rest)
    | '"' :: rest =>
      match parseStrAux (rest.length + 1) rest [] with
      | some (s, r) => some (.str s, r)
      | none => none
    | '[' :: rest => parseArrItems fuel rest
    | '{' :: rest => parseObjItems fuel rest []
    | other => parseNum other

/-- Array elements after `[`. -/
def parseArrItems : Nat → List Char → Option (Json × List Char)
  | 0, _ => none
  | fuel + 1, cs =>
    match skipWs cs with
    | ']' :: rest => some (.arr [], rest)
    | other => parseArrRest fuel other []

/-- Non-empty array tail: an element, then `,` or `]`.  `acc` holds the
elements parsed so far, in reverse. -/
def parseArrRest : Nat → List Char → List Json → Option (Json × List Char)
  | 0, _, _ => none
  | fuel + 1, cs, acc =>
    match parseVal fuel cs with
    | none => none
    | some (v, rest) =>
      match skipWs rest with
      | ',' :: r => parseArrRest fuel r (v :: acc)
      | ']' :: r => some (.arr (v :: acc).reverse, r)
      | _ => none

/-- Object members after `{`.  `acc` holds the members parsed so far. -/
def parseObjItems : Nat → List Char → List (String × Json) →
    Option (Json × List Char)
  | 0, _, _ => none
  | fuel + 1, cs, acc =>
    match skipWs cs with
    | '}' :: rest => some (.obj acc, rest)
    | '"' :: rest =>
      match parseStrAux (rest.length + 1) rest [] with
      | none => none
      | some (k, afterKey) =>
        match skipWs afterKey with
        | ':' :: afterColon =>
          match parseVal fuel afterColon with
          | none => none
          | some (v, afterVal) =>
            match skipWs afterVal with
            | ',' :: r => parseObjItems fuel r (addField acc k v)
            | '}' :: r => some (.obj (addField acc k v), r)
            | _ => none
        | _ => none
    | _ => none

end

/-- `JSON.parse` on one line: a single JSON value, possibly surrounded by
whitespace; anything else rejects (`none` stands for the thrown
`SyntaxError`). -/
def Json.parse (s : String) : Option Json :=
  match parseVal (2 * s.data.length + 8) s.data with
  | some (j, rest) => if skipWs rest = [] then some j else none
  | none => none

/-- A single hexadecimal digit, lower-case. -/
def hexDigit (n : Nat) : String :=
  String.singleton (if n < 10 then Char.ofNat ('0'.toNat + n)
                    else Char.ofNat ('a'.toNat + n - 10))

/-- `JSON.stringify` escaping of one string character. -/
def escChar (c : Char) : String :=
  if c = '"' then "\\\""
  else if c = '\\' then "\\\\"
  else if c = '\n' then "\\n"
  else if c = '\r' then "\\r"
  else if c = '\t' then "\\t"
  else if c = Char.ofNat 8 then "\\b"
  else if c = Char.ofNat 12 then "\\f"
  else if c.toNat < 32 then
    "\\u00" ++ hexDigit (c.toNat / 16) ++ hexDigit (c.toNat % 16)
  else String.singleton c

/-- A JSON string literal for `s`. -/
def quoteStr (s : String) : String :=
  "\"" ++ String.join (s.data.map escChar) ++ "\""

/-- Join with a separator (`Array.prototype.join` style). -/
def joinSep (sep : String) : List String → String
  | [] => ""
  | [x] => x
  | x :: rest => x ++ sep ++ joinSep sep rest

mutual

/-- `JSON.stringify` of a value. -/
def Json.stringify : Json → String
  | .null => "null"
  | .bool true => "true"
  | .bool false => "false"
  | .num n => toString n
  | .str s => quoteStr s
  | .arr xs => "[" ++ joinSep "," (stringifyList xs) ++ "]"
  | .obj fs => "\x7b" ++ joinSep "," (stringifyFields fs) ++ "\x7d"

/-- Serialised array elements, in order. -/
def stringifyList : List Json → List String
  | [] => []
  | x :: rest => Json.stringify x :: stringifyList rest

/-- Serialised object members, in order. -/
def stringifyFields : List (String × Json) → List String
  | [] => []
  | (k, v) :: rest => (quoteStr k ++ ":" ++ Json.stringify v) :: stringifyFields rest

end

/-! ## JavaScript value semantics used by the rewrite's matching -/

/-- Is the value JavaScript `null`?  Property access on `null` throws a
`TypeError`. -/
def Json.isNull : Json → Bool
  | .null => true
  | _ => false

/-- JavaScript property lookup `v.k` on a non-null value: for an object,
the field's value; for anything else (booleans, numbers, strings, arrays
without such an index), `undefined`, modelled by `none`. -/
def getField (j : Json) (k : String) : Option Json :=
  match j with
  | .obj fields => (fields.find? (fun p => p.1 = k)).map (fun p => p.2)
  | _ => none

/-- JavaScript `===` on two possibly-`undefined` values that come from two
*separately materialised* JSON values (one freshly produced by
`JSON.parse` of a stored line, one from the request body):
`undefined === undefined` is true, primitives compare by value, and two
objects or arrays are never the same reference, hence never `===`. -/
def jsStrictEq : Option Json → Option Json → Bool
  | none, none => true
  | some (.null), some (.null) => true
  | some (.bool a), some (.bool b) => a == b
  | some (.num a), some (.num b) => a == b
  | some (.str a), some (.str b) => a == b
  | _, _ => false

/-- The test `parsed.id === obj.id` of `FileWriter.edit`/`delete`, as a
Boolean: when either side is `null`, the property access throws, the
`catch` swallows it and the line is copied verbatim — indistinguishable
from a non-match, so modelled as `false`. -/
def matchesTarget (parsed obj : Json) : Bool :=
  if parsed.isNull || obj.isNull then false
  else jsStrictEq (getField parsed "id") (getField obj "id")

/-- Does a stored line match the caller's target record?  `false` when the
line is not parseable JSON. -/
def lineMatches (obj : Json) (line : String) : Bool :=
  match Json.parse line with
  | some parsed => matchesTarget parsed obj
  | none => false

/-! ## Line splitting -/

/-- `!line.trim()` of JavaScript: the line is empty or all whitespace. -/
def blankLine (line : String) : Bool :=
  line.data.all isWsChar

/-- Accumulating splitter for `rlLines`; `cur` holds the current line's
characters in reverse. -/
def rlLinesAux : List Char → List Char → List String
  | [], [] => []
  | [], cur => [String.mk cur.reverse]
  | '\r' :: '\n' :: rest, cur => String.mk cur.reverse :: rlLinesAux rest []
  | '\n' :: rest, cur => String.mk cur.reverse :: rlLinesAux rest []
  | '\r' :: rest, cur => String.mk cur.reverse :: rlLinesAux rest []
  | c :: rest, cur => rlLinesAux rest (c :: cur)

/-- The lines that `readline.createInterface` (with `crlfDelay: Infinity`)
emits for a file's content: terminators are `\n`, `\r\n` or `\r`; a final
unterminated segment is emitted as a line; a terminated file yields no
trailing empty line. -/
def rlLines (content : String) : List String :=
  rlLinesAux content.data []

/-- Accumulating splitter for `splitNl`. -/
def splitNlAux : List Char → List Char → List String
  | [], cur => [String.mk cur.reverse]
  | '\n' :: rest, cur => String.mk cur.reverse :: splitNlAux rest []
  | c :: rest, cur => splitNlAux rest (c :: cur)

/-- JavaScript `content.split("\n")`: every segment, including a trailing
empty one when the content ends in a newline (`"".split` gives `[""]`). -/
def splitNl (content : String) : List String :=
  splitNlAux content.data []

/-! ## The rewrite algorithm shared by `edit` and `delete`

`FileWriter.edit`/`delete` stream the active file line by line into a
sibling `.tmp` file and atomically rename it over the original.  Per line:
a blank line is written as a bare `"\n"`, a parseable matching line is
replaced by `JSON.stringify(obj) + "\n"` (edit) or omitted (delete), and
any other line — non-matching or unparseable — is copied as
`line + "\n"`. -/

/-- What `edit` writes to the temp file for one input line. -/
def processLineEdit (obj : Json) (line : String) : String :=
  if blankLine line then "\n"
  else
    match Json.parse line with
    | some parsed =>
      if matchesTarget parsed obj then Json.stringify obj ++ "\n"
      else line ++ "\n"
    | none => line ++ "\n"

/-- What `delete` writes to the temp file for one input line. -/
def processLineDelete (obj : Json) (line : String) : String :=
  if blankLine line then "\n"
  else
    match Json.parse line with
    | some parsed =>
      if matchesTarget parsed obj then ""
      else line ++ "\n"
    | none => line ++ "\n"

/-- The temp-file segments produced by `edit`, one per input line. -/
def editSegs (obj : Json) (content : String) : List String :=
  (rlLines content).map (processLineEdit obj)

/-- The temp-file segments produced by `delete`, one per input line. -/
def deleteSegs (obj : Json) (content : String) : List String :=
  (rlLines content).map (processLineDelete obj)

/-- The full content `edit` leaves at the original path after the
temp-file rename. -/
def rewriteEditContent (obj : Json) (content : String) : String :=
  String.join (editSegs obj content)

/-- The full content `delete` leaves at the original path after the
temp-file rename. -/
def rewriteDeleteContent (obj : Json) (content : String) : String :=
  String.join (deleteSegs obj content)

/-! ## Per-key filesystem state and the operations on it

`active` is the content of `<activeDir>/<key>.jsonl` (if the file exists),
`temp` the content of the sibling `.jsonl.tmp`, `complete` the content of
`<completeDir>/<key>.json`. -/

/-- The on-disk state relevant to one key. -/
structure KeyState where
  active : Option String
  temp : Option String
  complete : Option String

/-- The empty filesystem for a key: no file exists. -/
def initKS : KeyState := ⟨none, none, none⟩

/-- `FileWriter.append`: open the active file in `"a"` mode (creating it
empty if absent) and append the caller's pre-serialised record followed by
a newline. -/
def appendState (obj : String) (s : KeyState) : KeyState :=
  { s with active := some ((s.active.getD "") ++ obj ++ "\n") }

/-- `FileWriter.edit` at the state level: a missing active file is checked
with `fs.access` *before* any stream is created, so it is a no-op that
creates nothing; otherwise the rewrite runs and the rename consumes the
temp file. -/
def editState (obj : Json) (s : KeyState) : KeyState :=
  match s.active with
  | none => s
  | some c => { s with active := some (rewriteEditContent obj c), temp := none }

/-- `FileWriter.delete` at the state level, analogous to `editState`. -/
def deleteState (obj : Json) (s : KeyState) : KeyState :=
  match s.active with
  | none => s
  | some c => { s with active := some (rewriteDeleteContent obj c), temp := none }

/-! ## Finalize (`finishTranscript` of `src/finish.ts`)

The function reads the active file as a stream, keeping the text after the
last seen `"\n"` in `buffer`; every complete nonblank line is
`JSON.parse`d (a throw rejects the whole call) and pushed onto `messages`.
After the stream ends, a nonblank `buffer` is parsed too: it becomes the
*metadata* when no complete nonblank line preceded it (`lineIndex === 0`),
otherwise one more message.  The resulting `{metadata, messages}` document
is written to the complete path and the active file is unlinked.  The
model processes the whole content at once, which agrees with the
chunk-by-chunk loop because the buffer scheme is chunk-boundary
invariant. -/

/-- Parse the complete (newline-terminated) nonblank lines in order;
`Except.error` models the `JSON.parse` throw rejecting the call. -/
def parseMsgs : List String → Except Unit (List Json)
  | [] => .ok []
  | l :: rest =>
    if blankLine l then parseMsgs rest
    else
      match Json.parse l with
      | none => .error ()
      | some j =>
        match parseMsgs rest with
        | .error () => .error ()
        | .ok msgs => .ok (j :: msgs)

/-- The document `finishTranscript` computes from the active file's
content, or an error when some line fails to parse. -/
def finishDoc (content : String) (callerMeta : Json) :
    Except Unit (Json × List Json) :=
  let segs := splitNl content
  let buffer := segs.getLastD ""
  let lines := segs.dropLast
  match parseMsgs lines with
  | .error () => .error ()
  | .ok msgs =>
    if blankLine buffer then .ok (callerMeta, msgs)
    else
      match Json.parse buffer with
      | none => .error ()
      | some j =>
        if msgs.length = 0 then .ok (j, []) else .ok (callerMeta, msgs ++ [j])

/-- The serialised complete document,
`JSON.stringify({ metadata, messages })`. -/
def docJson (doc : Json × List Json) : Json :=
  .obj [("metadata", doc.1), ("messages", .arr doc.2)]

/-- `finishTranscript` at the state level: a missing active file makes the
read stream error out before anything is written; a parse error rejects
with nothing written and the active file intact; on success the complete
document is written and the active file unlinked. -/
def finalizeState (meta : Json) (s : KeyState) :
    KeyState × Except Unit (Json × List Json) :=
  match s.active with
  | none => (s, .error ())
  | some c =>
    match finishDoc c meta with
    | .error () => (s, .error ())
    | .ok doc =>
      ({ active := none, temp := s.temp,
         complete := some (Json.stringify (docJson doc)) }, .ok doc)

/-! ## The per-key promise chain (`queues` of `FileWriter`)

Every operation on a key is submitted as
`next = last.catch(e => console.error(e)).then(task)` followed by
`queues.set(id, next)`.  On Node's single-threaded event loop a settled
promise is a computation on the shared state delivering a settlement
(`true` = fulfilled, `false` = rejected); `.catch` with a logging handler
turns any settlement into fulfilment, and `.then(task)` runs `task` after
its antecedent fulfils, propagating a rejection unchanged. -/

/-- One queued operation: it transforms the state and either fulfils or
rejects. -/
structure ChainTask (σ : Type) where
  run : σ → σ × Bool

/-- A settled promise computation over state `σ`: the state it leaves and
whether it fulfilled (`true`) or rejected (`false`). -/
def PComp (σ : Type) : Type := σ → σ × Bool

/-- `Promise.resolve()`, the chain's seed when `queues` has no entry. -/
def presolved {σ : Type} : PComp σ :=
  fun s => (s, true)

/-- `p.catch(e => console.error(e))`: settles after `p`, always
fulfilled — the handler logs and returns `undefined`. -/
def pcatch {σ : Type} (p : PComp σ) : PComp σ :=
  fun s => ((p s).1, true)

/-- `p.then(task)`: once `p` settles, run `task` if `p` fulfilled, else
propagate the rejection without running `task`. -/
def pthen {σ : Type} (p : PComp σ) (t : ChainTask σ) : PComp σ :=
  fun s =>
    let r := p s
    if r.2 then t.run r.1 else r

/-- One submission to the key's queue:
`last.catch(e => console.error(e)).then(task)`. -/
def scheduleTask {σ : Type} (chain : PComp σ) (t : ChainTask σ) : PComp σ :=
  pthen (pcatch chain) t

/-- The chain standing in `queues` after the given tasks were submitted in
list order. -/
def chainOf {σ : Type} (ts : List (ChainTask σ)) : PComp σ :=
  ts.foldl scheduleTask presolved

/-- Instrumented task `i`: applies its effect and records `i` in the
execution trace carried alongside the state; `outcome i` says whether it
fulfils or rejects. -/
def mkChainTask {σ : Type} (outcome : Nat → Bool) (eff : Nat → σ → σ)
    (i : Nat) : ChainTask (σ × List Nat) :=
  ⟨fun st => ((eff i st.1, st.2 ++ [i]), outcome i)⟩

/-- The execution trace (task indices, in execution order) of the chain
built from tasks `0, …, n-1`. -/
def chainTrace (σ : Type) (n : Nat) (outcome : Nat → Bool)
    (eff : Nat → σ → σ) (s0 : σ) : List Nat :=
  ((chainOf ((List.range n).map (mkChainTask outcome eff))) (s0, [])).1.2

/-! ## The handle cache with idle eviction (`fileStates` of `FileWriter`)

`getFileHandle` returns the cached handle when `fileStates` has an entry
(only resetting the idle timer) and opens a fresh handle otherwise,
caching it; the idle timer's callback `closeFile` closes the handle and
deletes the entry (the deletion happens after the close has completed, so
with respect to reopening the two form one step), or does nothing if the
entry is already gone.  Handles are named by fresh numbers. -/

/-- The handle-cache state for one key: the cached entry (a handle id),
the ids of currently open handles, and a fresh-id counter. -/
structure HandleSt where
  cached : Option Nat
  openHs : List Nat
  nextH : Nat

/-- Before any acquisition: no entry, no open handle. -/
def initHandleSt : HandleSt := ⟨none, [], 0⟩

/-- The transitions of the handle cache for one key. -/
inductive HStep : HandleSt → HandleSt → Prop
  /-- `getFileHandle` with a cached entry: reuse it, reset the timer. -/
  | hit (s : HandleSt) (h : Nat) : s.cached = some h → HStep s s
  /-- `getFileHandle` with no entry: `fs.open` a fresh handle and cache
  it. -/
  | miss (s : HandleSt) : s.cached = none →
      HStep s ⟨some s.nextH, s.nextH :: s.openHs, s.nextH + 1⟩
  /-- The idle timer fires with an entry present: `closeFile` closes the
  handle and deletes the entry. -/
  | fire (s : HandleSt) (h : Nat) : s.cached = some h →
      HStep s ⟨none, s.openHs.erase h, s.nextH⟩
  /-- The idle timer fires after the entry is already gone: `closeFile`
  finds nothing and does nothing. -/
  | fireNoop (s : HandleSt) : s.cached = none → HStep s s

/-- States the handle cache can reach from the initial state. -/
inductive HReach : HandleSt → Prop
  | init : HReach initHandleSt
  | step {s t : HandleSt} : HReach s → HStep s t → HReach t

/-- The cache invariant: the open handles are exactly the cached one. -/
def HandleInv (s : HandleSt) : Prop :=
  s.openHs = (match s.cached with | some h => [h] | none => [])

/-! ## Helper lemmas -/

/-- `skipWs` consumes an all-whitespace input entirely. -/
theorem skipWs_eq_nil_of_all_ws :
    ∀ l : List Char, l.all isWsChar = true → skipWs l = []
  | [], _ => rfl
  | c :: rest, h => by
    simp only [List.all_cons, Bool.and_eq_true] at h
    simp [skipWs, h.1, skipWs_eq_nil_of_all_ws rest h.2]

/-- The value parser fails on all-whitespace input. -/
theorem parseVal_all_ws (fuel : Nat) (cs : List Char)
    (h : cs.all isWsChar = true) : parseVal fuel cs = none := by
  cases fuel with
  | zero => simp [parseVal]
  | succ k => simp [parseVal, skipWs_eq_nil_of_all_ws cs h]

/-- A blank (empty or all-whitespace) line is not parseable JSON. -/
theorem parse_of_blank {line : String} (h : blankLine line = true) :
    Json.parse line = none := by
  unfold blankLine at h
  simp [Json.parse, parseVal_all_ws _ _ h]

/-- A line that parses is not blank. -/
theorem not_blank_of_parse {line : String} {j : Json}
    (h : Json.parse line = some j) : blankLine line = false := by
  cases hb : blankLine line with
  | false => rfl
  | true => rw [parse_of_blank hb] at h; cases h

/-- `parseMsgs` rejects as soon as the list contains a nonblank
unparseable line. -/
theorem parseMsgs_error_of_mem {lines : List String} {line : String}
    (hm : line ∈ lines) (hnb : blankLine line = false)
    (hbad : Json.parse line = none) : parseMsgs lines = .error () := by
  induction lines with
  | nil => cases hm
  | cons l rest ih =>
    rcases List.mem_cons.mp hm with rfl | hm'
    · simp [parseMsgs, hnb, hbad]
    · by_cases hb : blankLine l = true
      · simp [parseMsgs, hb, ih hm']
      · cases hp : Json.parse l with
        | none => simp [parseMsgs, hb, hp]
        | some j =>
          simp [parseMsgs, hb, hp, ih hm']

/-- A member of a list is in its `dropLast` or is its last element. -/
theorem mem_dropLast_or_eq_getLastD {α : Type} (d : α) (l : List α) (a : α)
    (ha : a ∈ l) : a ∈ l.dropLast ∨ a = l.getLastD d := by
  rcases List.eq_nil_or_concat l with rfl | ⟨L, b, rfl⟩
  · cases ha
  · rw [List.concat_eq_append] at ha ⊢
    rw [List.dropLast_concat, List.getLastD_concat]
    rcases List.mem_append.mp ha with h | h
    · exact Or.inl h
    · exact Or.inr (List.mem_singleton.mp h)

/-- `finishDoc` rejects whenever some segment of the split content is
nonblank and unparseable. -/
theorem finishDoc_error_of_bad_line {c : String} {line : String} (meta : Json)
    (hmem : line ∈ splitNl c) (hnb : blankLine line = false)
    (hbad : Json.parse line = none) : finishDoc c meta = .error () := by
  rcases mem_dropLast_or_eq_getLastD "" (splitNl c) line hmem with hd | hl
  · simp [finishDoc, parseMsgs_error_of_mem hd hnb hbad]
  · cases hpm : parseMsgs (splitNl c).dropLast with
    | error e => cases e; simp [finishDoc, hpm]
    | ok msgs =>
      have h1 : blankLine ((splitNl c).getLast?.getD "") = false := by
        rw [← List.getLastD_eq_getLast?, ← hl]; exact hnb
      have h2 : Json.parse ((splitNl c).getLast?.getD "") = none := by
        rw [← List.getLastD_eq_getLast?, ← hl]; exact hbad
      simp [finishDoc, hpm, h1, h2]

/-- Appending one task to a chain runs the new task on the state the old
chain leaves, whatever the old chain's settlement was. -/
theorem chainOf_concat {σ : Type} (ts : List (ChainTask σ)) (t : ChainTask σ)
    (s : σ) : chainOf (ts ++ [t]) s = t.run ((chainOf ts s).1) := by
  unfold chainOf
  rw [List.foldl_append]
  simp [List.foldl, scheduleTask, pthen, pcatch]

/-- Every reachable handle-cache state satisfies `HandleInv`. -/
theorem handleInv_of_reach {s : HandleSt} (h : HReach s) : HandleInv s := by
  induction h with
  | init => rfl
  | step _ hs ih =>
    cases hs with
    | hit h hc => exact ih
    | miss hc =>
      unfold HandleInv at ih ⊢
      rw [hc] at ih
      simp [ih]
    | fire h hc =>
      unfold HandleInv at ih ⊢
      rw [hc] at ih
      simp [ih, List.erase_cons_head]
    | fireNoop hc => exact ih

/-! ## The claims -/

/-- C1: for every key, the operations submitted through the per-key
promise chain (`queues` of `FileWriter`) execute in strict submission
order — the trace of executed task indices is exactly `0, …, n-1` — and a
rejection of a prior task (any `outcome` function, including one rejecting
every task) never prevents the next task from running, because each
submission is chained as `last.catch(log).then(task)`.  Sequentiality is
structural: `pthen` runs a task only on the state its settled antecedent
left. -/
theorem scheduler_executes_in_submission_order (σ : Type) (n : Nat)
    (outcome : Nat → Bool) (eff : Nat → σ → σ) (s0 : σ) :
    chainTrace σ n outcome eff s0 = List.range n := by
  induction n with
  | zero => rfl
  | succ k ih =>
    unfold chainTrace at ih ⊢
    rw [List.range_succ, List.map_append, List.map_cons, List.map_nil,
      chainOf_concat]
    simp only [mkChainTask]
    rw [ih]

/-- C9: in every reachable state of the handle cache for a key, at most
one open handle exists, and once the idle-timer eviction has run (the
cache entry is absent) no handle for the key remains open — a fresh open
happens only from the entryless state. -/
theorem at_most_one_open_handle_per_key (s : HandleSt) (h : HReach s) :
    s.openHs.length ≤ 1 ∧ (s.cached = none → s.openHs = []) := by
  have inv := handleInv_of_reach h
  unfold HandleInv at inv
  cases hc : s.cached with
  | none => rw [hc] at inv; simp [inv]
  | some hd => rw [hc] at inv; simp [inv]

/-- C9 witness: the initial state is reachable and satisfies the bound. -/
theorem at_most_one_open_handle_per_key_witness :
    initHandleSt.openHs.length ≤ 1 ∧
    (initHandleSt.cached = none → initHandleSt.openHs = []) :=
  at_most_one_open_handle_per_key initHandleSt HReach.init

/-- C2 counterexample: appending exactly the record `{"note":"hi"}` (the
append writes the record followed by `"\n"`) and finalizing with empty
caller metadata yields `{"metadata":{}, "messages":[{"note":"hi"}]}` — the
newline-terminated single line is a *message*, and the metadata is the
caller's empty object, not the record. -/
theorem appended_single_record_not_metadata :
    (finalizeState (Json.obj []) (appendState "\x7b\"note\":\"hi\"\x7d" initKS)).2 =
      .ok (Json.obj [], [Json.obj [("note", Json.str "hi")]]) ∧
    Json.obj ([] : List (String × Json)) ≠ Json.obj [("note", Json.str "hi")] ∧
    ([Json.obj [("note", Json.str "hi")]] : List Json) ≠ [] := by
  refine ⟨rfl, ?_, ?_⟩ <;> simp

/-- C2 amended: appending one record and finalizing with empty caller
metadata yields `{"metadata":{}, "messages":[record]}`, because `append`
newline-terminates the line; the single-line-as-metadata quirk applies
only to a file whose sole line is *unterminated* (text after the last
newline), in which case finalize yields
`{"metadata":record, "messages":[]}`. -/
theorem finalize_metadata_quirk_only_for_unterminated_line :
    (finalizeState (Json.obj []) (appendState "\x7b\"note\":\"hi\"\x7d" initKS)).2 =
      .ok (Json.obj [], [Json.obj [("note", Json.str "hi")]]) ∧
    finishDoc "\x7b\"note\":\"hi\"\x7d" (Json.obj []) =
      .ok (Json.obj [("note", Json.str "hi")], []) :=
  ⟨rfl, rfl⟩

/-- C3 counterexample: an active file whose content is a single space —
one whitespace-only line, which no target matches — is rewritten by
`edit`/`delete` to a bare newline: the whitespace is dropped and a
terminator added, so the result is not byte-identical. -/
theorem rewrite_normalizes_whitespace_only_line :
    (∀ l ∈ rlLines " ", lineMatches (Json.obj [("id", Json.str "z")]) l = false) ∧
    rewriteEditContent (Json.obj [("id", Json.str "z")]) " " = "\n" ∧
    rewriteDeleteContent (Json.obj [("id", Json.str "z")]) " " = "\n" ∧
    (" " : String) ≠ "\n" := by
  refine ⟨?_, rfl, rfl, ?_⟩ <;> decide

/-- C3 amended: for an active file in canonical form — every line is
`"\n"`-terminated (equivalently, the content is the concatenation of its
lines each followed by a newline) and every blank line is empty rather
than whitespace-only — `edit` and `delete` with a target matching no line
leave the content byte-identical; only the temp-file-and-rename mechanics
occur.  On other files the rewrite additionally normalizes
whitespace-only lines to empty ones, adds a missing final terminator, and
normalizes `\r\n`/`\r` terminators to `\n`. -/
theorem rewrite_identity_on_nonmatching_canonical_file (obj : Json)
    (content : String)
    (hcanon : String.join ((rlLines content).map (fun l => l ++ "\n")) = content)
    (hblank : ∀ l ∈ rlLines content, blankLine l = true → l = "")
    (hnm : ∀ l ∈ rlLines content, lineMatches obj l = false) :
    rewriteEditContent obj content = content ∧
    rewriteDeleteContent obj content = content := by
  have hmapE : ∀ l ∈ rlLines content, processLineEdit obj l = l ++ "\n" := by
    intro l hl
    by_cases hb : blankLine l = true
    · have : l = "" := hblank l hl hb
      subst this
      simp [processLineEdit, hb]
    · have hnm' := hnm l hl
      unfold lineMatches at hnm'
      cases hp : Json.parse l with
      | none => simp [processLineEdit, hb, hp]
      | some j =>
        rw [hp] at hnm'
        have hm : matchesTarget j obj = false := hnm'
        simp [processLineEdit, hb, hp, hm]
  have hmapD : ∀ l ∈ rlLines content, processLineDelete obj l = l ++ "\n" := by
    intro l hl
    by_cases hb : blankLine l = true
    · have : l = "" := hblank l hl hb
      subst this
      simp [processLineDelete, hb]
    · have hnm' := hnm l hl
      unfold lineMatches at hnm'
      cases hp : Json.parse l with
      | none => simp [processLineDelete, hb, hp]
      | some j =>
        rw [hp] at hnm'
        have hm : matchesTarget j obj = false := hnm'
        simp [processLineDelete, hb, hp, hm]
  constructor
  · unfold rewriteEditContent editSegs
    rw [List.map_congr_left hmapE, hcanon]
  · unfold rewriteDeleteContent deleteSegs
    rw [List.map_congr_left hmapD, hcanon]

/-- C3 witness: a canonical one-line file with a non-matching target is
left byte-identical by both rewrites. -/
theorem rewrite_identity_on_nonmatching_canonical_file_witness :
    rewriteEditContent (Json.obj [("id", Json.str "z")]) "\x7b\"id\":\"x\"\x7d\n" =
      "\x7b\"id\":\"x\"\x7d\n" ∧
    rewriteDeleteContent (Json.obj [("id", Json.str "z")]) "\x7b\"id\":\"x\"\x7d\n" =
      "\x7b\"id\":\"x\"\x7d\n" :=
  rewrite_identity_on_nonmatching_canonical_file
    (Json.obj [("id", Json.str "z")]) "\x7b\"id\":\"x\"\x7d\n"
    (by rfl) (by decide) (by decide)

/-- C4: appending `{"a":1}` then `{"a":2}` and finalizing with empty
caller metadata produces `{"metadata":{}, "messages":[{"a":1},{"a":2}]}`
with the messages in append order; afterwards the active file no longer
exists while the complete file does. -/
theorem finalize_round_trip :
    finalizeState (Json.obj [])
        (appendState "\x7b\"a\":2\x7d" (appendState "\x7b\"a\":1\x7d" initKS)) =
      (⟨none, none, some "\x7b\"metadata\":\x7b\x7d,\"messages\":[\x7b\"a\":1\x7d,\x7b\"a\":2\x7d]\x7d"⟩,
       .ok (Json.obj [],
            [Json.obj [("a", Json.num 1)], Json.obj [("a", Json.num 2)]])) ∧
    (finalizeState (Json.obj [])
        (appendState "\x7b\"a\":2\x7d" (appendState "\x7b\"a\":1\x7d" initKS))).1.active
      = none ∧
    (finalizeState (Json.obj [])
        (appendState "\x7b\"a\":2\x7d" (appendState "\x7b\"a\":1\x7d" initKS))).1.complete.isSome
      = true :=
  ⟨rfl, rfl, rfl⟩

/-- C5: every line of the active file that parses and matches the target
is transformed — the segment `edit` writes for it is the new serialized
record (the same `JSON.stringify(obj) + "\n"` for every such line) and
the segment `delete` writes for it is empty (the line is omitted).  This
holds at every matching position, not only the first, so all K lines
sharing the target's identifier are replaced / removed. -/
theorem rewrite_transforms_every_matching_line (obj : Json) (content : String)
    (i : Nat) (line : String)
    (hline : (rlLines content)[i]? = some line)
    (hnb : blankLine line = false)
    (hmatch : lineMatches obj line = true) :
    (editSegs obj content)[i]? = some (Json.stringify obj ++ "\n") ∧
    (deleteSegs obj content)[i]? = some "" := by
  unfold lineMatches at hmatch
  cases hp : Json.parse line with
  | none => rw [hp] at hmatch; cases hmatch
  | some j =>
    rw [hp] at hmatch
    have hm : matchesTarget j obj = true := hmatch
    constructor
    · unfold editSegs
      rw [List.getElem?_map, hline]
      simp [processLineEdit, hnb, hp, hm]
    · unfold deleteSegs
      rw [List.getElem?_map, hline]
      simp [processLineDelete, hnb, hp, hm]

/-- C5 witness: in a file where lines 0 and 2 carry `id` 1, targeting
`id` 1 transforms line 2 as well (edit writes the new record there,
delete omits it), not only the first match. -/
theorem rewrite_transforms_every_matching_line_witness :
    (editSegs (Json.obj [("id", Json.num 1), ("v", Json.num 7)])
      "\x7b\"id\":1\x7d\nx\n\x7b\"id\":1\x7d\n")[2]? =
      some (Json.stringify (Json.obj [("id", Json.num 1), ("v", Json.num 7)])
        ++ "\n") ∧
    (deleteSegs (Json.obj [("id", Json.num 1), ("v", Json.num 7)])
      "\x7b\"id\":1\x7d\nx\n\x7b\"id\":1\x7d\n")[2]? = some "" :=
  rewrite_transforms_every_matching_line
    (Json.obj [("id", Json.num 1), ("v", Json.num 7)])
    "\x7b\"id\":1\x7d\nx\n\x7b\"id\":1\x7d\n" 2 "\x7b\"id\":1\x7d"
    (by rfl) (by decide) (by decide)

/-- C6: when any nonblank segment of the active file's content fails to
parse as JSON, `finishTranscript` rejects as a whole: the returned state
is unchanged — the complete document is not written and the active file
is left intact. -/
theorem finalize_aborts_on_parse_error (meta : Json) (s : KeyState)
    (c line : String) (hc : s.active = some c) (hmem : line ∈ splitNl c)
    (hnb : blankLine line = false) (hbad : Json.parse line = none) :
    finalizeState meta s = (s, .error ()) := by
  have hd := finishDoc_error_of_bad_line (c := c) meta hmem hnb hbad
  simp [finalizeState, hc, hd]

/-- C6 witness: a file holding the single malformed line `{oops` makes
finalize reject and leaves the state untouched. -/
theorem finalize_aborts_on_parse_error_witness :
    finalizeState (Json.obj []) ⟨some "\x7boops\n", none, none⟩ =
      (⟨some "\x7boops\n", none, none⟩, .error ()) :=
  finalize_aborts_on_parse_error (Json.obj []) ⟨some "\x7boops\n", none, none⟩
    "\x7boops\n" "\x7boops" rfl (by decide) (by decide) (by rfl)

/-- C7: when the active file for a key does not exist, `edit` and
`delete` are no-op successes (the `fs.access` probe fails and the task
returns before any stream is created): the whole per-key state is
unchanged, so in particular no active file and no temp file is created. -/
theorem rewrite_noop_on_missing_active_file (obj : Json) (s : KeyState)
    (h : s.active = none) :
    editState obj s = s ∧ deleteState obj s = s := by
  constructor <;> simp [editState, deleteState, h]

/-- C7 witness: on the empty filesystem, `edit` and `delete` leave every
path absent. -/
theorem rewrite_noop_on_missing_active_file_witness :
    editState Json.null initKS = initKS ∧
    deleteState Json.null initKS = initKS ∧
    (editState Json.null initKS).active = none ∧
    (editState Json.null initKS).temp = none := by
  have h := rewrite_noop_on_missing_active_file Json.null initKS rfl
  exact ⟨h.1, h.2, by rw [h.1]; rfl, by rw [h.1]; rfl⟩

/-- C8: a nonblank line that is not parseable JSON never makes `edit` or
`delete` fail — the `JSON.parse` throw is caught per line — and the
segment written for it is the line copied verbatim (plus the terminator),
whatever the target is. -/
theorem rewrite_copies_unparseable_line_verbatim (obj : Json)
    (content : String) (i : Nat) (line : String)
    (hline : (rlLines content)[i]? = some line)
    (hnb : blankLine line = false)
    (hbad : Json.parse line = none) :
    (editSegs obj content)[i]? = some (line ++ "\n") ∧
    (deleteSegs obj content)[i]? = some (line ++ "\n") := by
  constructor
  · unfold editSegs
    rw [List.getElem?_map, hline]
    simp [processLineEdit, hnb, hbad]
  · unfold deleteSegs
    rw [List.getElem?_map, hline]
    simp [processLineDelete, hnb, hbad]

/-- C8 witness: the malformed line `{oops` sandwiched between valid JSON
lines is copied through unchanged by both rewrites. -/
theorem rewrite_copies_unparseable_line_verbatim_witness :
    (editSegs (Json.obj [("id", Json.num 1)])
      "\x7b\"id\":2\x7d\n\x7boops\n\x7b\"id\":3\x7d\n")[1]? = some ("\x7boops" ++ "\n") ∧
    (deleteSegs (Json.obj [("id", Json.num 1)])
      "\x7b\"id\":2\x7d\n\x7boops\n\x7b\"id\":3\x7d\n")[1]? = some ("\x7boops" ++ "\n") :=
  rewrite_copies_unparseable_line_verbatim (Json.obj [("id", Json.num 1)])
    "\x7b\"id\":2\x7d\n\x7boops\n\x7b\"id\":3\x7d\n" 1 "\x7boops" (by rfl) (by decide) (by rfl)

/-- C10 counterexample: the stored line `null` is parseable JSON and has
no `id` field, and the target `{}` has no `id` field either, yet `delete`
does not remove the line: `JSON.parse("null").id` throws a `TypeError`,
the per-line `catch` swallows it, and the line is copied verbatim. -/
theorem null_line_lacks_id_but_not_removed :
    Json.parse "null" = some Json.null ∧
    getField Json.null "id" = none ∧
    getField (Json.obj []) "id" = none ∧
    rewriteDeleteContent (Json.obj []) "null\n" = "null\n" ∧
    ("null\n" : String) ≠ "" :=
  ⟨rfl, rfl, rfl, rfl, by decide⟩

/-- C10 amended: identifier matching is JavaScript strict equality on the
`id` fields and is fail-open for missing fields *between non-null
values*: when the target is non-null with no `id` field, every line that
parses to a non-null value with no `id` field matches (`undefined ===
undefined`), so `delete` omits it and `edit` replaces it with the
serialized target.  A stored `null` line (or a `null` target) is the
exception: the property access throws, is caught, and the line is copied
verbatim. -/
theorem missing_id_matching_fail_open_nonnull (obj j : Json)
    (content : String) (i : Nat) (line : String)
    (hline : (rlLines content)[i]? = some line)
    (hparse : Json.parse line = some j)
    (hjn : j.isNull = false) (hon : obj.isNull = false)
    (hjid : getField j "id" = none) (hoid : getField obj "id" = none) :
    (deleteSegs obj content)[i]? = some "" ∧
    (editSegs obj content)[i]? = some (Json.stringify obj ++ "\n") := by
  have hnb : blankLine line = false := not_blank_of_parse hparse
  have hm : matchesTarget j obj = true := by
    simp [matchesTarget, hjn, hon, hjid, hoid, jsStrictEq]
  constructor
  · unfold deleteSegs
    rw [List.getElem?_map, hline]
    simp [processLineDelete, hnb, hparse, hm]
  · unfold editSegs
    rw [List.getElem?_map, hline]
    simp [processLineEdit, hnb, hparse, hm]

/-- C10 witness: with target `{"v":9}` (no `id`), the stored line
`{"a":1}` (no `id`, non-null) is removed by `delete` and replaced by
`edit`. -/
theorem missing_id_matching_fail_open_nonnull_witness :
    (deleteSegs (Json.obj [("v", Json.num 9)]) "\x7b\"a\":1\x7d\n")[0]? = some "" ∧
    (editSegs (Json.obj [("v", Json.num 9)]) "\x7b\"a\":1\x7d\n")[0]? =
      some (Json.stringify (Json.obj [("v", Json.num 9)]) ++ "\n") :=
  missing_id_matching_fail_open_nonnull (Json.obj [("v", Json.num 9)])
    (Json.obj [("a", Json.num 1)]) "\x7b\"a\":1\x7d\n" 0 "\x7b\"a\":1\x7d"
    (by rfl) (by rfl) (by rfl) (by rfl) (by rfl) (by rfl)
